import Mathlib

/-!
Verification development for the Fast-F1 experimental track-map scripts
(`experimental.py` and `testing.py`).

Coordinates and timestamps are modelled as rationals; the real-valued
square roots appearing in the arc-length integration are modelled with
`Real.sqrt`.  Fallible Python code (index errors, division by zero,
attribute errors) is modelled with `Option`, where `none` stands for a
raised exception.
-/

set_option maxHeartbeats 1000000
set_option maxRecDepth 100000

/-- `TrackPoint` from `experimental.py` (and `Point` from `testing.py`):
a simple point with `x`/`y` coordinates and an optional date. -/
structure TrackPoint where
  x : ℚ
  y : ℚ
  date : Option ℚ := none
deriving DecidableEq, Repr

/-- `TrackPoint.get_sqr_dist`: `dist = abs(other.x - self.x) + abs(other.y - self.y)`.
Despite the name this is the L1 (Manhattan) metric, not a squared Euclidean
distance. -/
def TrackPoint.get_sqr_dist (p other : TrackPoint) : ℚ :=
  |other.x - p.x| + |other.y - p.y|

/-- Python's `min` on a non-empty list `x :: xs`. -/
def pyMinNE (x : ℚ) (xs : List ℚ) : ℚ :=
  xs.foldl min x

/-- The composite `distances.index(min(distances))` used throughout the source:
build the list of `f`-values over `h :: t`, take its minimum, and return the
index of the first occurrence of that minimum. -/
def minIdxBy {α : Type} (f : α → ℚ) (h : α) (t : List α) : ℕ :=
  ((h :: t).map f).indexOf (pyMinNE (f h) (t.map f))

/-- One iteration of the `while self.unsorted_points:` loop of `_sort_points`
pops exactly one point from the unsorted list, so running the loop on a list
`u` takes exactly `u.length` iterations.  `sortLoopF` is that loop with the
iteration count made explicit as the first (fuel) argument; `sortLoop` below
applies it to `u.length`.  State: the current point `_next_point`, the
remaining `unsorted_points`, and the accumulated `sorted_points` and
`excluded_points`.  Each iteration computes all distances from the current
point to the remaining points, finds the minimum and its first index,
appends the current point to `excluded_points` when that minimum exceeds
200 and to `sorted_points` otherwise, and pops the closest remaining point
as the new current point. -/
def sortLoopF : ℕ → TrackPoint → List TrackPoint → List TrackPoint → List TrackPoint →
    TrackPoint × List TrackPoint × List TrackPoint
  | _, next, [], s, e => (next, s, e)
  | 0, next, _ :: _, s, e => (next, s, e)
  | fuel + 1, next, h :: t, s, e =>
    let min_dst := pyMinNE (next.get_sqr_dist h) (t.map next.get_sqr_dist)
    let index_min := minIdxBy next.get_sqr_dist h t
    let p := (h :: t).getD index_min h
    let rest := (h :: t).eraseIdx index_min
    if 200 < min_dst then
      sortLoopF fuel p rest s (e ++ [next])
    else
      sortLoopF fuel p rest (s ++ [next]) e

/-- The greedy sequencing loop shared by `_sort_points` in `experimental.py`
and `testing.py`, returning the final current point and the accumulated
sorted and excluded lists. -/
def sortLoop (next : TrackPoint) (u s e : List TrackPoint) :
    TrackPoint × List TrackPoint × List TrackPoint :=
  sortLoopF u.length next u s e

/-- `TrackMap._sort_points` from `experimental.py`: pop the first unsorted
point, run the greedy loop, then append the final current point when it is
within distance 200 of the last sorted point.  `none` models a raised
exception (`pop(0)` on an empty list, or the `self.sorted_points[-1]`
index error when no point was ever sorted). -/
def sort_points_experimental (pts : List TrackPoint) :
    Option (List TrackPoint × List TrackPoint) :=
  match pts with
  | [] => none
  | p0 :: rest =>
    match sortLoop p0 rest [] [] with
    | (last, sorted, excluded) =>
      match sorted.getLast? with
      | none => none
      | some lastSorted =>
        if last.get_sqr_dist lastSorted ≤ 200 then
          some (sorted ++ [last], excluded)
        else
          some (sorted, excluded)

/-- `TrackMap._sort_points` from `testing.py`: identical greedy loop, but the
final current point is silently dropped (neither sorted nor excluded). -/
def sort_points_testing (pts : List TrackPoint) :
    Option (List TrackPoint × List TrackPoint) :=
  match pts with
  | [] => none
  | p0 :: rest =>
    match sortLoop p0 rest [] [] with
    | (_, sorted, excluded) => some (sorted, excluded)

/-- Formalization of "the minimum distance from the current point to the
remaining points is at most 200 at every step of the greedy tour".  The loop
appends the current point to `excluded_points` exactly when a step's minimum
exceeds 200, so an empty excluded output of the loop run from the popped
first point states precisely that every step's minimum was within 200. -/
def gapless_run (pts : List TrackPoint) : Bool :=
  match pts with
  | [] => true
  | p0 :: rest => ((sortLoop p0 rest [] []).2.2).isEmpty

/-- The running sums of `_integrate_distance`: starting from the cumulative
value `acc` at point `prev`, each further point adds
`sqrt(prev.get_sqr_dist(cur))` (note: the square root of the L1 value). -/
noncomputable def distancesFrom (acc : ℝ) (prev : TrackPoint) :
    List TrackPoint → List ℝ
  | [] => []
  | p :: ps =>
    (acc + Real.sqrt (prev.get_sqr_dist p : ℚ)) ::
      distancesFrom (acc + Real.sqrt (prev.get_sqr_dist p : ℚ)) p ps

/-- `TrackMap._integrate_distance` (identical in `experimental.py` and
`testing.py`): `distances[0] = 0`, and
`distances[i] = distances[i-1] + sqrt(sorted[i-1].get_sqr_dist(sorted[i]))`. -/
noncomputable def integrate_distance (sorted : List TrackPoint) : List ℝ :=
  match sorted with
  | [] => [0]
  | p :: ps => 0 :: distancesFrom 0 p ps

/-- The normalization loop of `_integrate_distance`:
`distances_normalized.append(dist / distances[-1])` for each entry.  `none`
models the `ZeroDivisionError` raised when `distances[-1]` is zero (Python
raises on division by zero, unlike IEEE floats). -/
noncomputable def normalizeDistances (ds : List ℝ) : Option (List ℝ) :=
  match ds.getLast? with
  | none => none
  | some total => if total = 0 then none else some (ds.map (· / total))

/-- `TrackMap.generate_track` (common core of both files): sort the points,
integrate the distances, normalize.  Returns the sorted points with their
cumulative and normalized distances; `none` models a raised exception in any
stage.  This is the `experimental.py` variant of `_sort_points`. -/
noncomputable def generate_track_experimental (pts : List TrackPoint) :
    Option (List TrackPoint × List ℝ × List ℝ) :=
  match sort_points_experimental pts with
  | none => none
  | some (sorted, _) =>
    match normalizeDistances (integrate_distance sorted) with
    | none => none
    | some ns => some (sorted, integrate_distance sorted, ns)

/-- `TrackMap.generate_track` from `testing.py` (its `_sort_points` drops the
final point instead of testing it against the last sorted point). -/
noncomputable def generate_track_testing (pts : List TrackPoint) :
    Option (List TrackPoint × List ℝ × List ℝ) :=
  match sort_points_testing pts with
  | none => none
  | some (sorted, _) =>
    match normalizeDistances (integrate_distance sorted) with
    | none => none
    | some ns => some (sorted, integrate_distance sorted, ns)

/-- One row of a per-driver position DataFrame: a `Date` timestamp and
`X`/`Y` coordinates. -/
structure PosSample where
  date : ℚ
  x : ℚ
  y : ℚ
deriving DecidableEq, Repr

/-- The `TrackPoint(row.X, row.Y, row.Date)` conversion used when position
rows are handled as points. -/
def PosSample.pt (s : PosSample) : TrackPoint :=
  ⟨s.x, s.y, some s.date⟩

/-- The absolute timestamp difference `(drv_pos['Date'] - query_date).abs()`
used to rank position samples in `TrackMap.interpolate_pos_from_time`. -/
def dateDist (query : ℚ) (s : PosSample) : ℚ :=
  |s.date - query|

/-- The two rows selected by
`drv_pos.iloc[(drv_pos['Date'] - query_date).abs().argsort()[:2]]` in
`TrackMap.interpolate_pos_from_time`: the sample whose timestamp is nearest
`query_date` by absolute difference (first occurrence), then the nearest
among the remaining samples.  `none` when fewer than two samples exist. -/
def closest2 (samples : List PosSample) (query : ℚ) : Option (PosSample × PosSample) :=
  match samples with
  | [] => none
  | [_] => none
  | h :: t =>
    let i0 := minIdxBy (dateDist query) h t
    let s0 := (h :: t).getD i0 h
    match (h :: t).eraseIdx i0 with
    | [] => none
    | h2 :: t2 => some (s0, (h2 :: t2).getD (minIdxBy (dateDist query) h2 t2) h2)

/-- `TrackMap.interpolate_pos_from_time`: select the two samples with
timestamps nearest the query date, then linearly interpolate x and y by the
time fraction.  `none` models the index error raised when the driver has
fewer than two position samples. -/
def interpolate_pos_from_time (drvPos : List PosSample) (query : ℚ) :
    Option TrackPoint :=
  match closest2 drvPos query with
  | none => none
  | some (c0, c1) =>
    some ⟨c0.x + (c1.x - c0.x) * (query - c0.date) / (c1.date - c0.date),
          c0.y + (c1.y - c0.y) * (query - c0.date) / (c1.date - c0.date),
          none⟩

/-- `TrackMap.get_closest_point`: linear scan over the sorted track points,
returning the one at minimum `get_sqr_dist` from the query point (first
occurrence on ties).  `none` models the error raised on an empty track. -/
def get_closest_point (sorted : List TrackPoint) (point : TrackPoint) :
    Option TrackPoint :=
  match sorted with
  | [] => none
  | h :: t =>
    some ((h :: t).getD (minIdxBy (fun tp => tp.get_sqr_dist point) h t) h)

/-- Python attribute lookup on a `TrackPoint`: the class defines exactly the
lowercase attributes `x` and `y` (and `date`); any other attribute access
raises `AttributeError`, modelled by `none`. -/
def TrackPoint.attr (p : TrackPoint) (name : String) : Option ℚ :=
  if name = "x" then some p.x
  else if name = "y" then some p.y
  else none

/-- `TrackMap.get_time_from_pos`: after finding the closest track point, the
source executes `is_x = drv_pos.X = closest_track_pnt.X`.  The right-hand
side `closest_track_pnt.X` is evaluated first and raises `AttributeError`
(a `TrackPoint` only has the lowercase attribute `x`), so the function never
proceeds past this statement.  The outer `none` models that raised
exception; a normal return of the matching `Date` (or of Python `None`)
would be `some (some d)` (or `some none`). -/
def get_time_from_pos (sorted : List TrackPoint) (drvPos : List PosSample)
    (x y timeRangeStart timeRangeEnd : ℚ) : Option (Option ℚ) :=
  match get_closest_point sorted ⟨x, y, none⟩ with
  | none => none
  | some closest_track_pnt =>
    match closest_track_pnt.attr "X" with
    | none => none
    | some _ =>
      -- unreachable: the attribute access above always fails, so the
      -- remaining statements of the Python function are never executed
      -- (they could not be translated faithfully anyway: the chained
      -- assignment would overwrite the X column of the position data and
      -- the `and` of two pandas Series raises ValueError)
      none

/-- One lap row of the lap-timing DataFrame, restricted to the columns used
by `StartFinishCondition.for_driver`. -/
structure Lap where
  numberOfLaps : Option ℚ
  time : ℚ
  pitInTime : Option ℚ
  pitOutTime : Option ℚ
  lastLapTime : ℚ
deriving DecidableEq, Repr

/-- `self.data['laps'][is_drv].NumberOfLaps.max()`: the maximum defined lap
number of the driver's laps (pandas `max` skips nulls; `none` when every
entry is null). -/
def maxLapNum (laps : List Lap) : Option ℚ :=
  match laps.filterMap (fun l => l.numberOfLaps) with
  | [] => none
  | n :: ns => some (ns.foldl max n)

/-- A lap that `StartFinishCondition.for_driver` processes rather than skips:
its lap number is defined, is neither 1 nor the driver's last lap, and it has
no pit-in or pit-out time. -/
def usableLap (maxL : Option ℚ) (lap : Lap) : Bool :=
  match lap.numberOfLaps with
  | none => false
  | some n =>
    !(n = 1 ∨ some n = maxL ∨ lap.pitInTime ≠ none ∨ lap.pitOutTime ≠ none : Bool)

/-- `pos_points[min_index(pos_distances)]` (and the analogous pick from the
negative side): the sample of a non-empty side minimizing
`test_point.get_sqr_dist(pnt)` (first occurrence on ties). -/
def sampleDist (test : TrackPoint) (s : PosSample) : ℚ :=
  test.get_sqr_dist s.pt

def pickClosest (test : TrackPoint) (h : PosSample) (t : List PosSample) : PosSample :=
  (h :: t).getD (minIdxBy (sampleDist test) h t) h

/-- The body of the lap loop of `StartFinishCondition.for_driver` for a
single lap.  Result: `some none` when the lap is skipped (unusable lap, or
one of the two partitions around the candidate empty), `some (some (x, y))`
when the lap produces a derived lap-start position, and `none` when the
position interpolation raises (fewer than two position samples). -/
def processLap (sessionStart : ℚ) (maxL : Option ℚ) (drvPos : List PosSample)
    (test : TrackPoint) (lap : Lap) : Option (Option (ℚ × ℚ)) :=
  match lap.numberOfLaps with
  | none => some none
  | some n =>
    if n = 1 ∨ some n = maxL ∨ lap.pitInTime ≠ none ∨ lap.pitOutTime ≠ none then
      some none
    else
      let approxTime := sessionStart + lap.time
      let posRange := drvPos.filter fun s =>
        decide (approxTime - 10 < s.date) && decide (s.date < approxTime + 10)
      let posPoints := posRange.filter fun s => decide (s.x < test.x)
      let negPoints := posRange.filter fun s => !decide (s.x < test.x)
      match posPoints, negPoints with
      | [], _ => some none
      | _ :: _, [] => some none
      | ph :: pt, nh :: nt =>
        let p_a := pickClosest test ph pt
        let p_b := pickClosest test nh nt
        let testDate := p_a.date + (p_b.date - p_a.date) * (test.x - p_a.x) / (p_b.x - p_a.x)
        let lastLapStart := testDate - lap.lastLapTime
        match interpolate_pos_from_time drvPos lastLapStart with
        | none => none
        | some pt2 => some (some (pt2.x, pt2.y))

/-- The lap loop of `StartFinishCondition.for_driver`, accumulating the
parallel `res_x`/`res_y` lists. -/
def forDriverAux (sessionStart : ℚ) (maxL : Option ℚ) (drvPos : List PosSample)
    (test : TrackPoint) : List Lap → List ℚ × List ℚ → Option (List ℚ × List ℚ)
  | [], acc => some acc
  | lap :: rest, acc =>
    match processLap sessionStart maxL drvPos test lap with
    | none => none
    | some none => forDriverAux sessionStart maxL drvPos test rest acc
    | some (some pt) =>
      forDriverAux sessionStart maxL drvPos test rest (acc.1 ++ [pt.1], acc.2 ++ [pt.2])

/-- `StartFinishCondition.for_driver` for one driver: the driver's lap rows,
the driver's position samples, and the candidate point.  Returns the parallel
lists of derived lap-start x/y coordinates, or `none` when an exception is
raised. -/
def for_driver (sessionStart : ℚ) (laps : List Lap) (drvPos : List PosSample)
    (test : TrackPoint) : Option (List ℚ × List ℚ) :=
  forDriverAux sessionStart (maxLapNum laps) drvPos test laps ([], [])

/-- The per-condition result buffer entry of the solver: the pair of parallel
`res_x`/`res_y` lists produced by `Condition.for_driver`. -/
abbrev SolverRes : Type := List ℚ × List ℚ

/-- A solver task, abstracted to its condition index together with the result
its evaluation (`condition.for_driver(drv, point)`) produces. -/
abbrev SolverTask : Type := ℕ × SolverRes

/-- `SolverSubprocess.add_result`: store `data` under the condition index,
extending the parallel lists elementwise when the index is already present.
The per-worker results dictionary is modelled as a function from condition
indices to optional buffers. -/
def addResult (results : ℕ → Option SolverRes) (index : ℕ) (data : SolverRes) :
    ℕ → Option SolverRes :=
  fun k =>
    if k = index then
      match results index with
      | none => some data
      | some r => some (r.1 ++ data.1, r.2 ++ data.2)
    else results k

/-- The task-processing part of `SolverSubprocess.run` for one sweep step: a
worker consumes its share of the tasks in queue order and accumulates each
result with `add_result`, starting from the empty dictionary (the buffers are
cleared when the previous idle report was sent). -/
def workerRun (tasks : List SolverTask) : ℕ → Option SolverRes :=
  tasks.foldl (fun results t => addResult results t.1 t.2) (fun _ => none)

/-- The merge step of `AdvancedSyncSolver.wait_for_idle` for one received
report: keys already present have their parallel lists extended elementwise,
new keys are inserted. -/
def mergeReport (results report : ℕ → Option SolverRes) : ℕ → Option SolverRes :=
  fun k =>
    match report k, results k with
    | none, r => r
    | some s, none => some s
    | some s, some r => some (r.1 ++ s.1, r.2 ++ s.2)

/-- `AdvancedSyncSolver.wait_for_idle`: drain one idle report per worker
(exactly `number_of_processes` of them, in arrival order) and merge them. -/
def wait_for_idle (reports : List (ℕ → Option SolverRes)) : ℕ → Option SolverRes :=
  reports.foldl mergeReport (fun _ => none)

/-- The x-list held in an optional result buffer (empty when absent). -/
def outX (o : Option SolverRes) : List ℚ :=
  match o with
  | none => []
  | some r => r.1

/-- The y-list held in an optional result buffer (empty when absent). -/
def outY (o : Option SolverRes) : List ℚ :=
  match o with
  | none => []
  | some r => r.2


/-! ### Helper lemmas about the minimum-index pattern -/

theorem pyMinNE_mem (x : ℚ) (xs : List ℚ) : pyMinNE x xs ∈ x :: xs := by
  unfold pyMinNE
  induction xs generalizing x with
  | nil => exact List.mem_singleton.mpr rfl
  | cons y ys ih =>
    have h2 := ih (min x y)
    simp only [List.foldl_cons]
    rcases List.mem_cons.mp h2 with h3 | h3
    · rcases min_choice x y with hc | hc
      · rw [h3, hc]; exact List.mem_cons_self _ _
      · rw [h3, hc]; exact List.mem_cons_of_mem _ (List.mem_cons_self _ _)
    · exact List.mem_cons_of_mem _ (List.mem_cons_of_mem _ h3)

theorem pyMinNE_le (x : ℚ) (xs : List ℚ) : ∀ y ∈ x :: xs, pyMinNE x xs ≤ y := by
  unfold pyMinNE
  induction xs generalizing x with
  | nil =>
    intro y hy
    rw [List.mem_singleton.mp hy]
    exact le_refl _
  | cons z zs ih =>
    intro y hy
    simp only [List.foldl_cons]
    rcases List.mem_cons.mp hy with h1 | h1
    · subst h1
      exact le_trans (ih (min y z) (min y z) (List.mem_cons_self _ _)) (min_le_left _ _)
    · rcases List.mem_cons.mp h1 with h2 | h2
      · subst h2
        exact le_trans (ih (min x y) (min x y) (List.mem_cons_self _ _)) (min_le_right _ _)
      · exact ih (min x z) y (List.mem_cons_of_mem _ h2)

theorem minIdxBy_lt {α : Type} (f : α → ℚ) (h : α) (t : List α) :
    minIdxBy f h t < (h :: t).length := by
  have hmem : pyMinNE (f h) (t.map f) ∈ (h :: t).map f := by
    simp only [List.map_cons]
    exact pyMinNE_mem _ _
  have h4 := List.indexOf_lt_length.mpr hmem
  simpa [minIdxBy] using h4

theorem minIdxBy_get {α : Type} (f : α → ℚ) (h : α) (t : List α) :
    f ((h :: t).get ⟨minIdxBy f h t, minIdxBy_lt f h t⟩) = pyMinNE (f h) (t.map f) := by
  have hmem : pyMinNE (f h) (t.map f) ∈ (h :: t).map f := by
    simp only [List.map_cons]
    exact pyMinNE_mem _ _
  have hlt : minIdxBy f h t < ((h :: t).map f).length := by
    simpa using minIdxBy_lt f h t
  have h5 : ((h :: t).map f).get ⟨minIdxBy f h t, hlt⟩ = pyMinNE (f h) (t.map f) :=
    List.indexOf_get hlt
  rw [List.get_map] at h5
  exact h5

theorem minIdxBy_getD {α : Type} (f : α → ℚ) (h : α) (t : List α) :
    (h :: t).getD (minIdxBy f h t) h = (h :: t).get ⟨minIdxBy f h t, minIdxBy_lt f h t⟩ :=
  List.getD_eq_get _ _ _

theorem minIdxBy_getD_mem {α : Type} (f : α → ℚ) (h : α) (t : List α) :
    (h :: t).getD (minIdxBy f h t) h ∈ h :: t := by
  rw [minIdxBy_getD f h t]
  exact List.get_mem _ _ _

theorem minIdxBy_is_min {α : Type} (f : α → ℚ) (h : α) (t : List α) :
    ∀ y ∈ h :: t, f ((h :: t).getD (minIdxBy f h t) h) ≤ f y := by
  intro y hy
  rw [minIdxBy_getD f h t, minIdxBy_get f h t]
  rcases List.mem_cons.mp hy with h1 | h1
  · subst h1
    exact pyMinNE_le _ _ _ (List.mem_cons_self _ _)
  · exact pyMinNE_le _ _ _ (List.mem_cons_of_mem _ (List.mem_map_of_mem f h1))

theorem get_ne_of_lt_indexOf {α : Type} [DecidableEq α] {l : List α} {a : α} {j : ℕ}
    (hj : j < l.length) (hlt : j < l.indexOf a) : l.get ⟨j, hj⟩ ≠ a := by
  induction l generalizing j with
  | nil => simp at hj
  | cons b bs ih =>
    by_cases hb : b = a
    · rw [List.indexOf_cons_eq _ hb] at hlt
      omega
    · rw [List.indexOf_cons_ne _ hb] at hlt
      match j with
      | 0 => simpa using hb
      | j' + 1 =>
        simp only [List.get_cons_succ]
        exact ih (by simpa using hj) (by omega)

theorem minIdxBy_first {α : Type} (f : α → ℚ) (h : α) (t : List α) :
    ∀ j (hj : j < (h :: t).length), j < minIdxBy f h t →
      pyMinNE (f h) (t.map f) < f ((h :: t).get ⟨j, hj⟩) := by
  intro j hj hlt
  have hjm : j < ((h :: t).map f).length := by simpa using hj
  have hne : ((h :: t).map f).get ⟨j, hjm⟩ ≠ pyMinNE (f h) (t.map f) :=
    get_ne_of_lt_indexOf hjm (by simpa [minIdxBy] using hlt)
  rw [List.get_map] at hne
  have hle : pyMinNE (f h) (t.map f) ≤ f ((h :: t).get ⟨j, hj⟩) := by
    have hmem : f ((h :: t).get ⟨j, hj⟩) ∈ (f h) :: t.map f := by
      have := List.get_mem (h :: t) j hj
      rcases List.mem_cons.mp this with h1 | h1
      · rw [h1]; exact List.mem_cons_self _ _
      · exact List.mem_cons_of_mem _ (List.mem_map_of_mem f h1)
    exact pyMinNE_le _ _ _ hmem
  exact lt_of_le_of_ne hle (Ne.symm hne)

theorem perm_get_cons_eraseIdx {α : Type} :
    ∀ (l : List α) (i : ℕ) (hi : i < l.length),
      List.Perm l (l.get ⟨i, hi⟩ :: l.eraseIdx i) := by
  intro l
  induction l with
  | nil => intro i hi; simp at hi
  | cons a t ih =>
    intro i hi
    match i with
    | 0 => simp [List.eraseIdx]
    | j + 1 =>
      have hj : j < t.length := by simpa using hi
      have h1 := ih j hj
      have h2 : List.Perm (a :: t) (a :: (t.get ⟨j, hj⟩ :: t.eraseIdx j)) :=
        List.Perm.cons a h1
      have h3 : List.Perm (a :: (t.get ⟨j, hj⟩ :: t.eraseIdx j))
          (t.get ⟨j, hj⟩ :: a :: t.eraseIdx j) := List.Perm.swap _ _ _
      exact h2.trans h3

theorem get_sqr_dist_comm (p q : TrackPoint) :
    p.get_sqr_dist q = q.get_sqr_dist p := by
  unfold TrackPoint.get_sqr_dist
  rw [abs_sub_comm, abs_sub_comm q.y p.y]

theorem length_eraseIdx_minIdxBy {α : Type} (f : α → ℚ) (h : α) (t : List α) :
    ((h :: t).eraseIdx (minIdxBy f h t)).length = t.length := by
  have h1 := List.length_eraseIdx_add_one (minIdxBy_lt f h t)
  simp only [List.length_cons] at h1 ⊢
  omega

/-! ### Unfolding and structural lemmas for the greedy sequencing loop -/

theorem sortLoop_nil (next : TrackPoint) (s e : List TrackPoint) :
    sortLoop next [] s e = (next, s, e) := rfl

theorem sortLoop_cons (next h : TrackPoint) (t s e : List TrackPoint) :
    sortLoop next (h :: t) s e =
      if 200 < pyMinNE (next.get_sqr_dist h) (t.map next.get_sqr_dist) then
        sortLoop ((h :: t).getD (minIdxBy next.get_sqr_dist h t) h)
          ((h :: t).eraseIdx (minIdxBy next.get_sqr_dist h t)) s (e ++ [next])
      else
        sortLoop ((h :: t).getD (minIdxBy next.get_sqr_dist h t) h)
          ((h :: t).eraseIdx (minIdxBy next.get_sqr_dist h t)) (s ++ [next]) e := by
  unfold sortLoop
  have hlen : ((h :: t).eraseIdx (minIdxBy next.get_sqr_dist h t)).length = t.length :=
    length_eraseIdx_minIdxBy _ _ _
  rw [hlen]
  simp only [List.length_cons]
  rw [sortLoopF]

theorem sortLoop_excluded_extend :
    ∀ (n : ℕ) (u : List TrackPoint), u.length = n → ∀ next s e,
      ∃ d, (sortLoop next u s e).2.2 = e ++ d := by
  intro n
  induction n with
  | zero =>
    intro u hu next s e
    rw [List.length_eq_zero.mp hu, sortLoop_nil]
    exact ⟨[], by simp⟩
  | succ m ih =>
    intro u hu next s e
    match u with
    | h :: t =>
      rw [sortLoop_cons]
      have hrest : ((h :: t).eraseIdx (minIdxBy next.get_sqr_dist h t)).length = m := by
        rw [length_eraseIdx_minIdxBy]
        simpa using hu
      by_cases hc : 200 < pyMinNE (next.get_sqr_dist h) (t.map next.get_sqr_dist)
      · rw [if_pos hc]
        obtain ⟨d, hd⟩ := ih _ hrest _ s (e ++ [next])
        exact ⟨[next] ++ d, by rw [hd, List.append_assoc]⟩
      · rw [if_neg hc]
        exact ih _ hrest _ _ e


theorem sortLoop_gapless :
    ∀ (n : ℕ) (u : List TrackPoint), u.length = n → ∀ next s e,
      (sortLoop next u s e).2.2 = e →
      List.Perm ((sortLoop next u s e).2.1 ++ [(sortLoop next u s e).1]) (s ++ next :: u) ∧
      (u ≠ [] → ∃ c, (sortLoop next u s e).2.1.getLast? = some c ∧
        c.get_sqr_dist (sortLoop next u s e).1 ≤ 200) := by
  intro n
  induction n with
  | zero =>
    intro u hu next s e _
    rw [List.length_eq_zero.mp hu] at *
    rw [sortLoop_nil]
    exact ⟨List.Perm.refl _, fun hne => absurd rfl hne⟩
  | succ m ih =>
    intro u hu next s e hexcl
    match u with
    | h :: t =>
      have hrest : ((h :: t).eraseIdx (minIdxBy next.get_sqr_dist h t)).length = m := by
        rw [length_eraseIdx_minIdxBy]
        simpa using hu
      by_cases hc : 200 < pyMinNE (next.get_sqr_dist h) (t.map next.get_sqr_dist)
      · exfalso
        rw [sortLoop_cons, if_pos hc] at hexcl
        obtain ⟨d, hd⟩ := sortLoop_excluded_extend m _ hrest
          ((h :: t).getD (minIdxBy next.get_sqr_dist h t) h) s (e ++ [next])
        rw [hd] at hexcl
        have hlen := congrArg List.length hexcl
        simp only [List.length_append, List.length_cons, List.length_nil] at hlen
        omega
      · rw [sortLoop_cons, if_neg hc] at hexcl ⊢
        have hmd : next.get_sqr_dist ((h :: t).getD (minIdxBy next.get_sqr_dist h t) h) =
            pyMinNE (next.get_sqr_dist h) (t.map next.get_sqr_dist) := by
          rw [minIdxBy_getD next.get_sqr_dist h t]
          exact minIdxBy_get next.get_sqr_dist h t
        obtain ⟨hperm, hlast⟩ := ih _ hrest
          ((h :: t).getD (minIdxBy next.get_sqr_dist h t) h) (s ++ [next]) e hexcl
        constructor
        · refine hperm.trans ?_
          have h1 : List.Perm
              ((h :: t).getD (minIdxBy next.get_sqr_dist h t) h ::
                (h :: t).eraseIdx (minIdxBy next.get_sqr_dist h t)) (h :: t) := by
            rw [minIdxBy_getD next.get_sqr_dist h t]
            exact (perm_get_cons_eraseIdx (h :: t) _ (minIdxBy_lt _ _ _)).symm
          have h3 := List.Perm.append_left s (List.Perm.cons next h1)
          have heq2 : (s ++ [next]) ++
              ((h :: t).getD (minIdxBy next.get_sqr_dist h t) h ::
                (h :: t).eraseIdx (minIdxBy next.get_sqr_dist h t)) =
              s ++ next ::
                ((h :: t).getD (minIdxBy next.get_sqr_dist h t) h ::
                  (h :: t).eraseIdx (minIdxBy next.get_sqr_dist h t)) := by
            simp
          rw [heq2]
          exact h3
        · intro _
          by_cases hrne : (h :: t).eraseIdx (minIdxBy next.get_sqr_dist h t) = []
          · rw [hrne, sortLoop_nil]
            refine ⟨next, ?_, ?_⟩
            · simp
            · rw [hmd]
              exact not_lt.mp hc
          · exact hlast hrne

theorem sortLoop_all_far :
    ∀ (n : ℕ) (u : List TrackPoint), u.length = n → ∀ next s e,
      (∀ p ∈ u, 200 < next.get_sqr_dist p) →
      List.Pairwise (fun a b => 200 < a.get_sqr_dist b) u →
      (sortLoop next u s e).2.1 = s := by
  intro n
  induction n with
  | zero =>
    intro u hu next s e _ _
    rw [List.length_eq_zero.mp hu, sortLoop_nil]
  | succ m ih =>
    intro u hu next s e hfar hpw
    match u with
    | h :: t =>
      have hrest : ((h :: t).eraseIdx (minIdxBy next.get_sqr_dist h t)).length = m := by
        rw [length_eraseIdx_minIdxBy]
        simpa using hu
      have hmd : next.get_sqr_dist ((h :: t).getD (minIdxBy next.get_sqr_dist h t) h) =
          pyMinNE (next.get_sqr_dist h) (t.map next.get_sqr_dist) := by
        rw [minIdxBy_getD next.get_sqr_dist h t]
        exact minIdxBy_get next.get_sqr_dist h t
      have hc : 200 < pyMinNE (next.get_sqr_dist h) (t.map next.get_sqr_dist) := by
        rw [← hmd]
        exact hfar _ (minIdxBy_getD_mem next.get_sqr_dist h t)
      rw [sortLoop_cons, if_pos hc]
      have hpermu : List.Perm (h :: t)
          ((h :: t).getD (minIdxBy next.get_sqr_dist h t) h ::
            (h :: t).eraseIdx (minIdxBy next.get_sqr_dist h t)) := by
        rw [minIdxBy_getD next.get_sqr_dist h t]
        exact perm_get_cons_eraseIdx (h :: t) _ (minIdxBy_lt _ _ _)
      have hsymm : ∀ {a b : TrackPoint},
          200 < a.get_sqr_dist b → 200 < b.get_sqr_dist a := by
        intro a b hab
        rwa [get_sqr_dist_comm]
      have hpw2 := (List.Perm.pairwise_iff hsymm hpermu).mp hpw
      obtain ⟨hhead, htail⟩ := List.pairwise_cons.mp hpw2
      exact ih _ hrest _ s (e ++ [next]) hhead htail

/-! ### Claim theorems for the greedy sequencing (C2, C3, C4) -/

/-- C2: during greedy sequencing, at every iteration with remaining unsorted
points the loop finds the remaining point of (first) minimum L1 distance to
the current point; if that minimum exceeds 200 the current point is appended
to the excluded set, otherwise to the sorted sequence; in either case the
minimum point is popped and becomes the next current point; with no
remaining points the loop stops. -/
theorem C2_greedy_step_behavior :
    (∀ next s e, sortLoop next [] s e = (next, s, e)) ∧
    (∀ next h t s e, ∃ hi : minIdxBy next.get_sqr_dist h t < (h :: t).length,
      (∀ q ∈ h :: t,
        next.get_sqr_dist ((h :: t).get ⟨minIdxBy next.get_sqr_dist h t, hi⟩) ≤
          next.get_sqr_dist q) ∧
      (∀ j (hj : j < (h :: t).length), j < minIdxBy next.get_sqr_dist h t →
        next.get_sqr_dist ((h :: t).get ⟨minIdxBy next.get_sqr_dist h t, hi⟩) <
          next.get_sqr_dist ((h :: t).get ⟨j, hj⟩)) ∧
      sortLoop next (h :: t) s e =
        (if 200 < next.get_sqr_dist ((h :: t).get ⟨minIdxBy next.get_sqr_dist h t, hi⟩) then
          sortLoop ((h :: t).get ⟨minIdxBy next.get_sqr_dist h t, hi⟩)
            ((h :: t).eraseIdx (minIdxBy next.get_sqr_dist h t)) s (e ++ [next])
        else
          sortLoop ((h :: t).get ⟨minIdxBy next.get_sqr_dist h t, hi⟩)
            ((h :: t).eraseIdx (minIdxBy next.get_sqr_dist h t)) (s ++ [next]) e)) := by
  constructor
  · intro next s e
    exact sortLoop_nil next s e
  · intro next h t s e
    refine ⟨minIdxBy_lt next.get_sqr_dist h t, ?_, ?_, ?_⟩
    · intro q hq
      rw [← minIdxBy_getD next.get_sqr_dist h t]
      exact minIdxBy_is_min next.get_sqr_dist h t q hq
    · intro j hj hlt
      have h1 := minIdxBy_first next.get_sqr_dist h t j hj hlt
      rw [← minIdxBy_get next.get_sqr_dist h t] at h1
      exact h1
    · rw [sortLoop_cons, ← minIdxBy_getD next.get_sqr_dist h t,
        minIdxBy_getD next.get_sqr_dist h t, minIdxBy_get next.get_sqr_dist h t,
        ← minIdxBy_getD next.get_sqr_dist h t]

theorem C2_greedy_step_behavior_witness :
    ∃ hi : minIdxBy (TrackPoint.get_sqr_dist ⟨0, 0, none⟩) ⟨1, 0, none⟩ [] <
        ([⟨1, 0, none⟩] : List TrackPoint).length,
      (∀ q ∈ ([⟨1, 0, none⟩] : List TrackPoint),
        (⟨0, 0, none⟩ : TrackPoint).get_sqr_dist
            ([⟨1, 0, none⟩].get ⟨minIdxBy (TrackPoint.get_sqr_dist ⟨0, 0, none⟩) ⟨1, 0, none⟩ [], hi⟩) ≤
          (⟨0, 0, none⟩ : TrackPoint).get_sqr_dist q) ∧
      (∀ j (hj : j < ([⟨1, 0, none⟩] : List TrackPoint).length),
        j < minIdxBy (TrackPoint.get_sqr_dist ⟨0, 0, none⟩) ⟨1, 0, none⟩ [] →
        (⟨0, 0, none⟩ : TrackPoint).get_sqr_dist
            ([⟨1, 0, none⟩].get ⟨minIdxBy (TrackPoint.get_sqr_dist ⟨0, 0, none⟩) ⟨1, 0, none⟩ [], hi⟩) <
          (⟨0, 0, none⟩ : TrackPoint).get_sqr_dist ([⟨1, 0, none⟩].get ⟨j, hj⟩)) ∧
      sortLoop ⟨0, 0, none⟩ [⟨1, 0, none⟩] [] [] =
        (if 200 < (⟨0, 0, none⟩ : TrackPoint).get_sqr_dist
            ([⟨1, 0, none⟩].get ⟨minIdxBy (TrackPoint.get_sqr_dist ⟨0, 0, none⟩) ⟨1, 0, none⟩ [], hi⟩) then
          sortLoop ([⟨1, 0, none⟩].get ⟨minIdxBy (TrackPoint.get_sqr_dist ⟨0, 0, none⟩) ⟨1, 0, none⟩ [], hi⟩)
            ([⟨1, 0, none⟩].eraseIdx (minIdxBy (TrackPoint.get_sqr_dist ⟨0, 0, none⟩) ⟨1, 0, none⟩ []))
            [] ([] ++ [⟨0, 0, none⟩])
        else
          sortLoop ([⟨1, 0, none⟩].get ⟨minIdxBy (TrackPoint.get_sqr_dist ⟨0, 0, none⟩) ⟨1, 0, none⟩ [], hi⟩)
            ([⟨1, 0, none⟩].eraseIdx (minIdxBy (TrackPoint.get_sqr_dist ⟨0, 0, none⟩) ⟨1, 0, none⟩ []))
            ([] ++ [⟨0, 0, none⟩]) []) :=
  C2_greedy_step_behavior.2 ⟨0, 0, none⟩ ⟨1, 0, none⟩ [] [] []

/-- C3: for every input of at least 2 distinct points whose greedy tour has
minimum step distance at most 200 at every step (`gapless_run`), the
sequencing of `experimental.py` returns a sorted sequence that is a
permutation of the input (hence contains every input point exactly once, and
is duplicate-free), with an empty excluded set. -/
theorem C3_gapless_sequencing_keeps_all_points (pts : List TrackPoint)
    (hlen : 2 ≤ pts.length) (hnd : pts.Nodup) (hgap : gapless_run pts = true) :
    ∃ s, sort_points_experimental pts = some (s, []) ∧ List.Perm s pts ∧ s.Nodup := by
  match pts with
  | [] => simp at hlen
  | p0 :: rest =>
    have hrne : rest ≠ [] := by
      intro hr
      rw [hr] at hlen
      simp at hlen
    have hexcl : (sortLoop p0 rest [] []).2.2 = [] := by
      unfold gapless_run at hgap
      exact List.isEmpty_iff.mp hgap
    obtain ⟨hperm, hlast⟩ := sortLoop_gapless rest.length rest rfl p0 [] [] hexcl
    obtain ⟨c, hc1, hc2⟩ := hlast hrne
    rcases hres : sortLoop p0 rest [] [] with ⟨last, s2, e2⟩
    rw [hres] at hperm hexcl hc1 hc2
    simp only at hperm hexcl hc1 hc2
    have hcomm : last.get_sqr_dist c ≤ 200 := by
      rw [get_sqr_dist_comm]
      exact hc2
    have hperm2 : List.Perm (s2 ++ [last]) (p0 :: rest) := by
      simpa using hperm
    refine ⟨s2 ++ [last], ?_, hperm2, (hperm2.nodup_iff).mpr hnd⟩
    simp only [sort_points_experimental, hres, hc1, hexcl]
    rw [if_pos hcomm]

theorem C3_gapless_sequencing_keeps_all_points_witness :
    (2 ≤ ([⟨0, 0, none⟩, ⟨1, 0, none⟩, ⟨1, 1, none⟩, ⟨0, 1, none⟩] : List TrackPoint).length) ∧
    ([⟨0, 0, none⟩, ⟨1, 0, none⟩, ⟨1, 1, none⟩, ⟨0, 1, none⟩] : List TrackPoint).Nodup ∧
    gapless_run [⟨0, 0, none⟩, ⟨1, 0, none⟩, ⟨1, 1, none⟩, ⟨0, 1, none⟩] = true ∧
    (∃ s, sort_points_experimental [⟨0, 0, none⟩, ⟨1, 0, none⟩, ⟨1, 1, none⟩, ⟨0, 1, none⟩] =
        some (s, []) ∧
      List.Perm s [⟨0, 0, none⟩, ⟨1, 0, none⟩, ⟨1, 1, none⟩, ⟨0, 1, none⟩] ∧ s.Nodup) :=
  ⟨by with_unfolding_all decide, by with_unfolding_all decide, by with_unfolding_all decide,
    C3_gapless_sequencing_keeps_all_points _ (by with_unfolding_all decide)
      (by with_unfolding_all decide) (by with_unfolding_all decide)⟩

/-- C4 counterexample: two points at L1 distance 1000 (mutually farther apart
than the threshold 200).  The claim says track generation completes without
raising and yields a one-point track; in fact both variants raise
(`experimental.py`: IndexError on `sorted_points[-1]` since nothing was
sorted; `testing.py`: ZeroDivisionError normalizing an empty track), modelled
by `none`. -/
theorem C4_all_far_counterexample :
    generate_track_experimental [⟨0, 0, none⟩, ⟨1000, 0, none⟩] = none ∧
    generate_track_testing [⟨0, 0, none⟩, ⟨1000, 0, none⟩] = none := by
  have hsort1 : sort_points_experimental [⟨0, 0, none⟩, ⟨1000, 0, none⟩] = none := by
    with_unfolding_all decide
  have hsort2 : sort_points_testing [⟨0, 0, none⟩, ⟨1000, 0, none⟩] =
      some ([], [⟨0, 0, none⟩]) := by
    with_unfolding_all decide
  constructor
  · simp only [generate_track_experimental, hsort1]
  · simp [generate_track_testing, hsort2, integrate_distance, normalizeDistances]

/-- C4 amended: for every input point set in which all points are mutually
farther apart than the outlier threshold 200, every point but the final one
is excluded, the sorted sequence stays empty, and track generation raises
instead of yielding a one-point track (`experimental.py`: IndexError on
`sorted_points[-1]`; `testing.py`: ZeroDivisionError when normalizing by the
zero total distance of an empty sorted sequence). -/
theorem C4_all_far_generation_raises (pts : List TrackPoint)
    (hfar : List.Pairwise (fun a b => 200 < a.get_sqr_dist b) pts) :
    generate_track_experimental pts = none ∧ generate_track_testing pts = none := by
  match pts with
  | [] =>
    constructor
    · simp only [generate_track_experimental, sort_points_experimental]
    · simp only [generate_track_testing, sort_points_testing]
  | p0 :: rest =>
    obtain ⟨hhead, htail⟩ := List.pairwise_cons.mp hfar
    have hsorted : (sortLoop p0 rest [] []).2.1 = [] :=
      sortLoop_all_far rest.length rest rfl p0 [] [] hhead htail
    rcases hres : sortLoop p0 rest [] [] with ⟨last, s2, e2⟩
    rw [hres] at hsorted
    simp only at hsorted
    subst hsorted
    constructor
    · simp only [generate_track_experimental, sort_points_experimental, hres,
        List.getLast?_nil]
    · simp [generate_track_testing, sort_points_testing, hres, integrate_distance,
        normalizeDistances]

theorem C4_all_far_generation_raises_witness :
    List.Pairwise (fun a b => 200 < a.get_sqr_dist b)
      ([⟨0, 0, none⟩, ⟨500, 0, none⟩] : List TrackPoint) ∧
    (generate_track_experimental [⟨0, 0, none⟩, ⟨500, 0, none⟩] = none ∧
      generate_track_testing [⟨0, 0, none⟩, ⟨500, 0, none⟩] = none) :=
  ⟨by with_unfolding_all decide,
    C4_all_far_generation_raises _ (by with_unfolding_all decide)⟩

/-! ### Arc-length integration lemmas (C5, C1) -/

theorem chain_distancesFrom :
    ∀ (ps : List TrackPoint) (acc : ℝ) (p : TrackPoint),
      List.Chain' (· ≤ ·) (acc :: distancesFrom acc p ps) := by
  intro ps
  induction ps with
  | nil =>
    intro acc p
    exact List.chain'_singleton acc
  | cons q qs ih =>
    intro acc p
    rw [distancesFrom]
    refine List.chain'_cons.mpr ⟨?_, ih _ q⟩
    exact le_add_of_nonneg_right (Real.sqrt_nonneg _)

theorem integrate_distance_chain (sorted : List TrackPoint) :
    List.Chain' (· ≤ ·) (integrate_distance sorted) := by
  match sorted with
  | [] => exact List.chain'_singleton 0
  | p :: ps => exact chain_distancesFrom ps 0 p

theorem integrate_distance_ne_nil (sorted : List TrackPoint) :
    integrate_distance sorted ≠ [] := by
  match sorted with
  | [] => exact List.cons_ne_nil _ _
  | p :: ps => exact List.cons_ne_nil _ _

theorem integrate_distance_head (sorted : List TrackPoint) :
    (integrate_distance sorted).head? = some 0 := by
  match sorted with
  | [] => rfl
  | p :: ps => rfl

/-- C5: for a non-empty sorted sequence with positive total loop length, the
cumulative distance list is non-decreasing, and the normalized list exists
(no division by zero), starts at 0, is non-decreasing, and ends at exactly 1. -/
theorem C5_distance_invariants (sorted : List TrackPoint)
    (hne : sorted ≠ [])
    (hpos : 0 < (integrate_distance sorted).getLastD 0) :
    List.Chain' (· ≤ ·) (integrate_distance sorted) ∧
    (integrate_distance sorted).head? = some 0 ∧
    ∃ ns, normalizeDistances (integrate_distance sorted) = some ns ∧
      ns.head? = some 0 ∧ List.Chain' (· ≤ ·) ns ∧ ns.getLast? = some 1 := by
  have hdne := integrate_distance_ne_nil sorted
  have hgl : (integrate_distance sorted).getLast? =
      some ((integrate_distance sorted).getLast hdne) :=
    List.getLast?_eq_getLast _ hdne
  have htot : 0 < (integrate_distance sorted).getLast hdne := by
    rw [List.getLastD_eq_getLast?, hgl] at hpos
    exact hpos
  have htotne : (integrate_distance sorted).getLast hdne ≠ 0 := ne_of_gt htot
  refine ⟨integrate_distance_chain sorted, integrate_distance_head sorted, ?_⟩
  refine ⟨(integrate_distance sorted).map (· / (integrate_distance sorted).getLast hdne),
    ?_, ?_, ?_, ?_⟩
  · unfold normalizeDistances
    rw [hgl]
    simp only [if_neg htotne]
  · rw [List.head?_map, integrate_distance_head sorted]
    simp
  · rw [List.chain'_map]
    refine (integrate_distance_chain sorted).imp ?_
    intro a b hab
    exact (div_le_div_right htot).mpr hab
  · rw [List.getLast?_map, hgl]
    simp [div_self htotne]

theorem C5_distance_invariants_witness :
    (([⟨0, 0, none⟩, ⟨1, 0, none⟩] : List TrackPoint) ≠ []) ∧
    (0 < (integrate_distance [⟨0, 0, none⟩, ⟨1, 0, none⟩]).getLastD 0) ∧
    (List.Chain' (· ≤ ·) (integrate_distance [⟨0, 0, none⟩, ⟨1, 0, none⟩]) ∧
      (integrate_distance [⟨0, 0, none⟩, ⟨1, 0, none⟩]).head? = some 0 ∧
      ∃ ns, normalizeDistances (integrate_distance [⟨0, 0, none⟩, ⟨1, 0, none⟩]) = some ns ∧
        ns.head? = some 0 ∧ List.Chain' (· ≤ ·) ns ∧ ns.getLast? = some 1) := by
  have hd : ((⟨0, 0, none⟩ : TrackPoint).get_sqr_dist ⟨1, 0, none⟩) = 1 := by
    with_unfolding_all decide
  have hpos : 0 < (integrate_distance [⟨0, 0, none⟩, ⟨1, 0, none⟩]).getLastD 0 := by
    simp [integrate_distance, distancesFrom, hd]
  exact ⟨List.cons_ne_nil _ _, hpos,
    C5_distance_invariants _ (List.cons_ne_nil _ _) hpos⟩

/-- C1: the integration bug.  For the sorted points `(0,0), (3,4)` the code
computes `sqrt(get_sqr_dist) = sqrt(|3|+|4|) = sqrt 7` for the segment,
whereas the claimed (and, per the code's own comments, intended) true
Euclidean segment length is `sqrt(3^2+4^2) = 5`.  So the cumulative distance
is `[0, sqrt 7]`, not `[0, 5]`. -/
theorem C1_integration_uses_sqrt_of_L1 :
    integrate_distance [⟨0, 0, none⟩, ⟨3, 4, none⟩] = [0, Real.sqrt 7] ∧
    Real.sqrt ((3 : ℝ) ^ 2 + (4 : ℝ) ^ 2) = 5 ∧
    Real.sqrt 7 ≠ 5 := by
  have hd : ((⟨0, 0, none⟩ : TrackPoint).get_sqr_dist ⟨3, 4, none⟩) = 7 := by
    with_unfolding_all decide
  refine ⟨?_, ?_, ?_⟩
  · norm_num [integrate_distance, distancesFrom, hd]
  · rw [show (3 : ℝ) ^ 2 + (4 : ℝ) ^ 2 = 5 ^ 2 by norm_num]
    exact Real.sqrt_sq (by norm_num)
  · intro hcontra
    have h7 : Real.sqrt 7 < Real.sqrt 9 := Real.sqrt_lt_sqrt (by norm_num) (by norm_num)
    rw [show (9 : ℝ) = 3 ^ 2 by norm_num, Real.sqrt_sq (by norm_num)] at h7
    rw [hcontra] at h7
    norm_num at h7

/-- C9: `get_time_from_pos` never returns a date.  A `TrackPoint` has no
attribute `X` (only lowercase `x`), so the statement
`is_x = drv_pos.X = closest_track_pnt.X` raises `AttributeError` on every
call, for every input; the function can never perform the documented
nearest-sample date lookup, and the claimed read-only behaviour is
unobservable because no call completes. -/
theorem C9_get_time_from_pos_always_raises :
    (∀ p : TrackPoint, p.attr "X" = none) ∧
    (∀ (sorted : List TrackPoint) (drvPos : List PosSample) (x y t0 t1 : ℚ),
      get_time_from_pos sorted drvPos x y t0 t1 = none) := by
  constructor
  · intro p
    unfold TrackPoint.attr
    rw [if_neg (by decide), if_neg (by decide)]
  · intro sorted drvPos x y t0 t1
    unfold get_time_from_pos
    cases hc : get_closest_point sorted ⟨x, y, none⟩ with
    | none => rfl
    | some cp =>
      cases cp.attr "X" with
      | none => rfl
      | some _ => rfl

/-- C10 counterexample: on the unit square both sequencing implementations
run without error, yet their sorted outputs differ — `experimental.py`
appends the final point (it closes within the threshold), `testing.py`
drops it. -/
theorem C10_counterexample_square :
    (sort_points_experimental
      [⟨0, 0, none⟩, ⟨1, 0, none⟩, ⟨1, 1, none⟩, ⟨0, 1, none⟩]).isSome ∧
    (sort_points_testing
      [⟨0, 0, none⟩, ⟨1, 0, none⟩, ⟨1, 1, none⟩, ⟨0, 1, none⟩]).isSome ∧
    sort_points_experimental [⟨0, 0, none⟩, ⟨1, 0, none⟩, ⟨1, 1, none⟩, ⟨0, 1, none⟩] ≠
      sort_points_testing [⟨0, 0, none⟩, ⟨1, 0, none⟩, ⟨1, 1, none⟩, ⟨0, 1, none⟩] := by
  refine ⟨?_, ?_, ?_⟩ <;> with_unfolding_all decide

/-- C10 amended: when both implementations run without error on the same
input, they produce identical excluded sets, and the sorted sequences agree
except that `experimental.py` may additionally append the final remaining
point (which `testing.py` never appends). -/
theorem C10_sort_refinement (pts : List TrackPoint) (s e s2 e2 : List TrackPoint)
    (htest : sort_points_testing pts = some (s, e))
    (hexp : sort_points_experimental pts = some (s2, e2)) :
    e2 = e ∧ (s2 = s ∨ ∃ p, s2 = s ++ [p]) := by
  match pts with
  | [] => simp [sort_points_testing] at htest
  | p0 :: rest =>
    rcases hres : sortLoop p0 rest [] [] with ⟨last, sorted, excluded⟩
    have h1 : sorted = s ∧ excluded = e := by
      simpa [sort_points_testing, hres] using htest
    obtain ⟨hs, he⟩ := h1
    simp only [sort_points_experimental, hres] at hexp
    cases hgl : sorted.getLast? with
    | none =>
      simp only [hgl] at hexp
      exact Option.noConfusion hexp
    | some c =>
      simp only [hgl] at hexp
      by_cases hif : last.get_sqr_dist c ≤ 200
      · rw [if_pos hif] at hexp
        have h2 : sorted ++ [last] = s2 ∧ excluded = e2 := by
          simpa using hexp
        exact ⟨h2.2.symm.trans he, Or.inr ⟨last, by rw [← h2.1, hs]⟩⟩
      · rw [if_neg hif] at hexp
        have h2 : sorted = s2 ∧ excluded = e2 := by
          simpa using hexp
        exact ⟨h2.2.symm.trans he, Or.inl (h2.1.symm.trans hs)⟩

theorem C10_sort_refinement_witness :
    sort_points_testing [⟨0, 0, none⟩, ⟨1, 0, none⟩, ⟨1, 1, none⟩, ⟨0, 1, none⟩] =
      some ([⟨0, 0, none⟩, ⟨1, 0, none⟩, ⟨1, 1, none⟩], []) ∧
    sort_points_experimental [⟨0, 0, none⟩, ⟨1, 0, none⟩, ⟨1, 1, none⟩, ⟨0, 1, none⟩] =
      some ([⟨0, 0, none⟩, ⟨1, 0, none⟩, ⟨1, 1, none⟩, ⟨0, 1, none⟩], []) ∧
    (([] : List TrackPoint) = [] ∧
      (([⟨0, 0, none⟩, ⟨1, 0, none⟩, ⟨1, 1, none⟩, ⟨0, 1, none⟩] : List TrackPoint) =
          [⟨0, 0, none⟩, ⟨1, 0, none⟩, ⟨1, 1, none⟩] ∨
        ∃ p, ([⟨0, 0, none⟩, ⟨1, 0, none⟩, ⟨1, 1, none⟩, ⟨0, 1, none⟩] : List TrackPoint) =
          [⟨0, 0, none⟩, ⟨1, 0, none⟩, ⟨1, 1, none⟩] ++ [p])) :=
  ⟨by with_unfolding_all decide, by with_unfolding_all decide,
    C10_sort_refinement [⟨0, 0, none⟩, ⟨1, 0, none⟩, ⟨1, 1, none⟩, ⟨0, 1, none⟩]
      [⟨0, 0, none⟩, ⟨1, 0, none⟩, ⟨1, 1, none⟩] []
      [⟨0, 0, none⟩, ⟨1, 0, none⟩, ⟨1, 1, none⟩, ⟨0, 1, none⟩] []
      (by with_unfolding_all decide) (by with_unfolding_all decide)⟩

/-! ### Worker-pool result routing lemmas (C6) -/

theorem outX_addResult (d : ℕ → Option SolverRes) (i : ℕ) (r : SolverRes) (k : ℕ) :
    outX (addResult d i r k) = if k = i then outX (d k) ++ r.1 else outX (d k) := by
  unfold addResult outX
  by_cases hk : k = i
  · subst hk
    cases d k <;> simp
  · simp [hk]

theorem outY_addResult (d : ℕ → Option SolverRes) (i : ℕ) (r : SolverRes) (k : ℕ) :
    outY (addResult d i r k) = if k = i then outY (d k) ++ r.2 else outY (d k) := by
  unfold addResult outY
  by_cases hk : k = i
  · subst hk
    cases d k <;> simp
  · simp [hk]

theorem foldl_addResult_outX :
    ∀ (L : List SolverTask) (d : ℕ → Option SolverRes) (k : ℕ),
      outX (L.foldl (fun results t => addResult results t.1 t.2) d k) =
        outX (d k) ++ ((L.filter (fun t => t.1 == k)).map (fun t => t.2.1)).flatten := by
  intro L
  induction L with
  | nil => intro d k; simp
  | cons t L ih =>
    intro d k
    rw [List.foldl_cons, ih, outX_addResult]
    by_cases hk : t.1 = k
    · rw [if_pos hk.symm, List.filter_cons_of_pos (by simpa using hk), List.map_cons,
        List.flatten_cons, List.append_assoc]
    · rw [if_neg (fun hc => hk hc.symm), List.filter_cons_of_neg (by simpa using hk)]

theorem foldl_addResult_outY :
    ∀ (L : List SolverTask) (d : ℕ → Option SolverRes) (k : ℕ),
      outY (L.foldl (fun results t => addResult results t.1 t.2) d k) =
        outY (d k) ++ ((L.filter (fun t => t.1 == k)).map (fun t => t.2.2)).flatten := by
  intro L
  induction L with
  | nil => intro d k; simp
  | cons t L ih =>
    intro d k
    rw [List.foldl_cons, ih, outY_addResult]
    by_cases hk : t.1 = k
    · rw [if_pos hk.symm, List.filter_cons_of_pos (by simpa using hk), List.map_cons,
        List.flatten_cons, List.append_assoc]
    · rw [if_neg (fun hc => hk hc.symm), List.filter_cons_of_neg (by simpa using hk)]

theorem workerRun_outX (L : List SolverTask) (k : ℕ) :
    outX (workerRun L k) = ((L.filter (fun t => t.1 == k)).map (fun t => t.2.1)).flatten := by
  unfold workerRun
  rw [foldl_addResult_outX]
  rfl

theorem workerRun_outY (L : List SolverTask) (k : ℕ) :
    outY (workerRun L k) = ((L.filter (fun t => t.1 == k)).map (fun t => t.2.2)).flatten := by
  unfold workerRun
  rw [foldl_addResult_outY]
  rfl

theorem outX_mergeReport (d rep : ℕ → Option SolverRes) (k : ℕ) :
    outX (mergeReport d rep k) = outX (d k) ++ outX (rep k) := by
  unfold mergeReport outX
  cases rep k <;> cases d k <;> simp

theorem outY_mergeReport (d rep : ℕ → Option SolverRes) (k : ℕ) :
    outY (mergeReport d rep k) = outY (d k) ++ outY (rep k) := by
  unfold mergeReport outY
  cases rep k <;> cases d k <;> simp

theorem foldl_mergeReport_outX :
    ∀ (R : List (ℕ → Option SolverRes)) (d : ℕ → Option SolverRes) (k : ℕ),
      outX (R.foldl mergeReport d k) =
        outX (d k) ++ (R.map (fun rep => outX (rep k))).flatten := by
  intro R
  induction R with
  | nil => intro d k; simp
  | cons rep R ih =>
    intro d k
    rw [List.foldl_cons, ih, outX_mergeReport, List.map_cons, List.flatten_cons,
      List.append_assoc]

theorem foldl_mergeReport_outY :
    ∀ (R : List (ℕ → Option SolverRes)) (d : ℕ → Option SolverRes) (k : ℕ),
      outY (R.foldl mergeReport d k) =
        outY (d k) ++ (R.map (fun rep => outY (rep k))).flatten := by
  intro R
  induction R with
  | nil => intro d k; simp
  | cons rep R ih =>
    intro d k
    rw [List.foldl_cons, ih, outY_mergeReport, List.map_cons, List.flatten_cons,
      List.append_assoc]

theorem wait_for_idle_outX (R : List (ℕ → Option SolverRes)) (k : ℕ) :
    outX (wait_for_idle R k) = (R.map (fun rep => outX (rep k))).flatten := by
  unfold wait_for_idle
  rw [foldl_mergeReport_outX]
  rfl

theorem wait_for_idle_outY (R : List (ℕ → Option SolverRes)) (k : ℕ) :
    outY (wait_for_idle R k) = (R.map (fun rep => outY (rep k))).flatten := by
  unfold wait_for_idle
  rw [foldl_mergeReport_outY]
  rfl

theorem flatten_filter_flatten {β : Type} (W : List (List SolverTask))
    (p : SolverTask → Bool) (g : SolverTask → List β) :
    (W.map (fun L => ((L.filter p).map g).flatten)).flatten =
      ((W.flatten.filter p).map g).flatten := by
  induction W with
  | nil => simp
  | cons L W ih =>
    simp only [List.map_cons, List.flatten_cons, List.filter_append, List.map_append,
      List.flatten_append, ih]

/-- C6: for every sweep step, with the task list split arbitrarily among the
`numberOfWorkers` workers (each worker processing its share in queue order)
and the idle reports arriving in an arbitrary order, the coordinator drains
exactly `numberOfWorkers` reports, and for every condition index the merged
x-list and y-list are (up to the arbitrary interleaving) exactly the
concatenation of the outputs of all tasks of that condition: no task output
is lost and none is duplicated, regardless of which worker processed which
task. -/
theorem C6_worker_pool_roundtrip (numberOfWorkers : ℕ) (tasks : List SolverTask)
    (W : List (List SolverTask)) (R : List (ℕ → Option SolverRes))
    (hW : W.length = numberOfWorkers)
    (hsplit : List.Perm W.flatten tasks)
    (hR : List.Perm R (W.map workerRun)) :
    R.length = numberOfWorkers ∧
    ∀ k, List.Perm (outX (wait_for_idle R k))
        (((tasks.filter (fun t => t.1 == k)).map (fun t => t.2.1)).flatten) ∧
      List.Perm (outY (wait_for_idle R k))
        (((tasks.filter (fun t => t.1 == k)).map (fun t => t.2.2)).flatten) := by
  constructor
  · rw [hR.length_eq, List.length_map, hW]
  · intro k
    constructor
    · rw [wait_for_idle_outX]
      refine (List.Perm.flatten (hR.map (fun rep => outX (rep k)))).trans ?_
      rw [List.map_map]
      have h3 : W.map ((fun rep => outX (rep k)) ∘ workerRun) =
          W.map (fun L => ((L.filter (fun t => t.1 == k)).map (fun t => t.2.1)).flatten) :=
        List.map_congr_left (fun L _ => workerRun_outX L k)
      rw [h3, flatten_filter_flatten]
      exact ((hsplit.filter _).map _).flatten
    · rw [wait_for_idle_outY]
      refine (List.Perm.flatten (hR.map (fun rep => outY (rep k)))).trans ?_
      rw [List.map_map]
      have h3 : W.map ((fun rep => outY (rep k)) ∘ workerRun) =
          W.map (fun L => ((L.filter (fun t => t.1 == k)).map (fun t => t.2.2)).flatten) :=
        List.map_congr_left (fun L _ => workerRun_outY L k)
      rw [h3, flatten_filter_flatten]
      exact ((hsplit.filter _).map _).flatten

theorem C6_worker_pool_roundtrip_witness :
    ([[(0, ([1], [2])), (1, ([5], [6]))], [(0, ([3], [4]))]] : List (List SolverTask)).length
      = 2 ∧
    List.Perm ([[(0, ([1], [2])), (1, ([5], [6]))], [(0, ([3], [4]))]] :
        List (List SolverTask)).flatten
      ([(0, ([1], [2])), (0, ([3], [4])), (1, ([5], [6]))] : List SolverTask) ∧
    List.Perm
      [workerRun ([(0, ([3], [4]))] : List SolverTask),
        workerRun ([(0, ([1], [2])), (1, ([5], [6]))] : List SolverTask)]
      (([[(0, ([1], [2])), (1, ([5], [6]))], [(0, ([3], [4]))]] :
        List (List SolverTask)).map workerRun) ∧
    ([workerRun ([(0, ([3], [4]))] : List SolverTask),
        workerRun ([(0, ([1], [2])), (1, ([5], [6]))] : List SolverTask)].length = 2 ∧
    ∀ k, List.Perm
        (outX (wait_for_idle
          [workerRun ([(0, ([3], [4]))] : List SolverTask),
            workerRun ([(0, ([1], [2])), (1, ([5], [6]))] : List SolverTask)] k))
        (((([(0, ([1], [2])), (0, ([3], [4])), (1, ([5], [6]))] : List SolverTask).filter
            (fun t => t.1 == k)).map (fun t => t.2.1)).flatten) ∧
      List.Perm
        (outY (wait_for_idle
          [workerRun ([(0, ([3], [4]))] : List SolverTask),
            workerRun ([(0, ([1], [2])), (1, ([5], [6]))] : List SolverTask)] k))
        (((([(0, ([1], [2])), (0, ([3], [4])), (1, ([5], [6]))] : List SolverTask).filter
            (fun t => t.1 == k)).map (fun t => t.2.2)).flatten)) := by
  refine ⟨rfl, ?_, ?_, ?_⟩
  · with_unfolding_all decide
  · exact List.Perm.swap _ _ []
  · exact C6_worker_pool_roundtrip 2
      ([(0, ([1], [2])), (0, ([3], [4])), (1, ([5], [6]))] : List SolverTask)
      ([[(0, ([1], [2])), (1, ([5], [6]))], [(0, ([3], [4]))]] : List (List SolverTask))
      [workerRun ([(0, ([3], [4]))] : List SolverTask),
        workerRun ([(0, ([1], [2])), (1, ([5], [6]))] : List SolverTask)]
      rfl (by with_unfolding_all decide) (List.Perm.swap _ _ [])

/-! ### Position interpolation lemmas (C8) -/

/-! ### Position interpolation lemmas (C8) -/

theorem closest2_spec (samples : List PosSample) (q : ℚ) (hlen : 2 ≤ samples.length) :
    ∃ c0 c1 i, ∃ hi : i < samples.length,
      closest2 samples q = some (c0, c1) ∧
      samples.get ⟨i, hi⟩ = c0 ∧
      c1 ∈ samples.eraseIdx i ∧
      (∀ s ∈ samples, dateDist q c0 ≤ dateDist q s) ∧
      (∀ s ∈ samples.eraseIdx i, dateDist q c1 ≤ dateDist q s) := by
  match samples with
  | [] => simp at hlen
  | [_] => simp at hlen
  | h :: h2 :: t =>
    rcases herase : (h :: h2 :: t).eraseIdx (minIdxBy (dateDist q) h (h2 :: t))
      with _ | ⟨h3, t3⟩
    · exfalso
      have hl := length_eraseIdx_minIdxBy (dateDist q) h (h2 :: t)
      rw [herase] at hl
      simp at hl
    · have h0 : closest2 (h :: h2 :: t) q =
          (match (h :: h2 :: t).eraseIdx (minIdxBy (dateDist q) h (h2 :: t)) with
            | [] => none
            | h4 :: t4 =>
              some ((h :: h2 :: t).getD (minIdxBy (dateDist q) h (h2 :: t)) h,
                (h4 :: t4).getD (minIdxBy (dateDist q) h4 t4) h4)) := rfl
      have h1 : closest2 (h :: h2 :: t) q =
          some ((h :: h2 :: t).getD (minIdxBy (dateDist q) h (h2 :: t)) h,
            (h3 :: t3).getD (minIdxBy (dateDist q) h3 t3) h3) := by
        rw [h0, herase]
      have h2get := (minIdxBy_getD (dateDist q) h (h2 :: t)).symm
      have h3mem : (h3 :: t3).getD (minIdxBy (dateDist q) h3 t3) h3 ∈
          (h :: h2 :: t).eraseIdx (minIdxBy (dateDist q) h (h2 :: t)) := by
        rw [herase]
        exact minIdxBy_getD_mem _ _ _
      have h4min := minIdxBy_is_min (dateDist q) h (h2 :: t)
      have h5min : ∀ s ∈ (h :: h2 :: t).eraseIdx (minIdxBy (dateDist q) h (h2 :: t)),
          dateDist q ((h3 :: t3).getD (minIdxBy (dateDist q) h3 t3) h3) ≤ dateDist q s := by
        rw [herase]
        exact minIdxBy_is_min _ _ _
      exact ⟨_, _, _, minIdxBy_lt (dateDist q) h (h2 :: t),
        h1, h2get, h3mem, h4min, h5min⟩

theorem interpolate_eval (drvPos : List PosSample) (q : ℚ) (c0 c1 : PosSample)
    (hc : closest2 drvPos q = some (c0, c1)) :
    interpolate_pos_from_time drvPos q =
      some ⟨c0.x + (c1.x - c0.x) * (q - c0.date) / (c1.date - c0.date),
            c0.y + (c1.y - c0.y) * (q - c0.date) / (c1.date - c0.date), none⟩ := by
  unfold interpolate_pos_from_time
  rw [hc]

theorem interpolate_exact_first (drvPos : List PosSample) (q : ℚ) (c0 c1 : PosSample)
    (hc : closest2 drvPos q = some (c0, c1)) (hq : q = c0.date) :
    interpolate_pos_from_time drvPos q = some ⟨c0.x, c0.y, none⟩ := by
  rw [interpolate_eval drvPos q c0 c1 hc, hq]
  simp

theorem interpolate_exact_second (drvPos : List PosSample) (q : ℚ) (c0 c1 : PosSample)
    (hc : closest2 drvPos q = some (c0, c1)) (hne : c1.date ≠ c0.date)
    (hq : q = c1.date) :
    interpolate_pos_from_time drvPos q = some ⟨c1.x, c1.y, none⟩ := by
  rw [interpolate_eval drvPos q c0 c1 hc, hq]
  have hd : c1.date - c0.date ≠ 0 := sub_ne_zero.mpr hne
  have hx : c0.x + (c1.x - c0.x) * (c1.date - c0.date) / (c1.date - c0.date) = c1.x := by
    rw [mul_div_assoc, div_self hd, mul_one]
    ring
  have hy : c0.y + (c1.y - c0.y) * (c1.date - c0.date) / (c1.date - c0.date) = c1.y := by
    rw [mul_div_assoc, div_self hd, mul_one]
    ring
  rw [hx, hy]

/-- C8: with at least two samples of pairwise distinct timestamps,
`interpolate_pos_from_time` selects the sample nearest the query date by
absolute time difference and the nearest among the remaining samples,
linearly interpolates x and y by the time fraction between them, and is
exact (returns the sample's own coordinates) whenever the query date equals
the timestamp of either selected sample. -/
theorem C8_interpolation (samples : List PosSample) (q : ℚ)
    (hlen : 2 ≤ samples.length)
    (hdates : List.Pairwise (fun a b => a.date ≠ b.date) samples) :
    ∃ c0 c1, closest2 samples q = some (c0, c1) ∧ c0 ∈ samples ∧ c1 ∈ samples ∧
      c0.date ≠ c1.date ∧
      (∀ s ∈ samples, |c0.date - q| ≤ |s.date - q|) ∧
      (∃ i, ∃ hi : i < samples.length, samples.get ⟨i, hi⟩ = c0 ∧
        c1 ∈ samples.eraseIdx i ∧
        ∀ s ∈ samples.eraseIdx i, |c1.date - q| ≤ |s.date - q|) ∧
      interpolate_pos_from_time samples q =
        some ⟨c0.x + (c1.x - c0.x) * (q - c0.date) / (c1.date - c0.date),
              c0.y + (c1.y - c0.y) * (q - c0.date) / (c1.date - c0.date), none⟩ ∧
      (q = c0.date → interpolate_pos_from_time samples q = some ⟨c0.x, c0.y, none⟩) ∧
      (q = c1.date → interpolate_pos_from_time samples q = some ⟨c1.x, c1.y, none⟩) := by
  obtain ⟨c0, c1, i, hi, hc, hget, hc1mem, hmin0, hmin1⟩ := closest2_spec samples q hlen
  have hc0mem : c0 ∈ samples := by
    rw [← hget]
    exact List.get_mem _ _ _
  have hc1mem' : c1 ∈ samples := (List.eraseIdx_sublist samples i).mem hc1mem
  have hdist : c0.date ≠ c1.date := by
    have hperm : List.Perm samples (c0 :: samples.eraseIdx i) := by
      rw [← hget]
      exact perm_get_cons_eraseIdx samples i hi
    have hsymm : ∀ {a b : PosSample}, a.date ≠ b.date → b.date ≠ a.date :=
      fun hab => Ne.symm hab
    have hpw2 := (List.Perm.pairwise_iff hsymm hperm).mp hdates
    exact (List.pairwise_cons.mp hpw2).1 c1 hc1mem
  refine ⟨c0, c1, hc, hc0mem, hc1mem', hdist, hmin0, ⟨i, hi, hget, hc1mem, hmin1⟩,
    interpolate_eval samples q c0 c1 hc,
    fun hq => interpolate_exact_first samples q c0 c1 hc hq,
    fun hq => interpolate_exact_second samples q c0 c1 hc (Ne.symm hdist) hq⟩

theorem C8_interpolation_witness :
    (2 ≤ ([⟨0, 0, 0⟩, ⟨1, 10, 20⟩] : List PosSample).length) ∧
    List.Pairwise (fun a b => a.date ≠ b.date) ([⟨0, 0, 0⟩, ⟨1, 10, 20⟩] : List PosSample) ∧
    (∃ c0 c1, closest2 [⟨0, 0, 0⟩, ⟨1, 10, 20⟩] 1 = some (c0, c1) ∧
      c0 ∈ ([⟨0, 0, 0⟩, ⟨1, 10, 20⟩] : List PosSample) ∧
      c1 ∈ ([⟨0, 0, 0⟩, ⟨1, 10, 20⟩] : List PosSample) ∧
      c0.date ≠ c1.date ∧
      (∀ s ∈ ([⟨0, 0, 0⟩, ⟨1, 10, 20⟩] : List PosSample), |c0.date - 1| ≤ |s.date - 1|) ∧
      (∃ i, ∃ hi : i < ([⟨0, 0, 0⟩, ⟨1, 10, 20⟩] : List PosSample).length,
        ([⟨0, 0, 0⟩, ⟨1, 10, 20⟩] : List PosSample).get ⟨i, hi⟩ = c0 ∧
        c1 ∈ ([⟨0, 0, 0⟩, ⟨1, 10, 20⟩] : List PosSample).eraseIdx i ∧
        ∀ s ∈ ([⟨0, 0, 0⟩, ⟨1, 10, 20⟩] : List PosSample).eraseIdx i,
          |c1.date - 1| ≤ |s.date - 1|) ∧
      interpolate_pos_from_time [⟨0, 0, 0⟩, ⟨1, 10, 20⟩] 1 =
        some ⟨c0.x + (c1.x - c0.x) * (1 - c0.date) / (c1.date - c0.date),
              c0.y + (c1.y - c0.y) * (1 - c0.date) / (c1.date - c0.date), none⟩ ∧
      ((1 : ℚ) = c0.date → interpolate_pos_from_time [⟨0, 0, 0⟩, ⟨1, 10, 20⟩] 1 =
        some ⟨c0.x, c0.y, none⟩) ∧
      ((1 : ℚ) = c1.date → interpolate_pos_from_time [⟨0, 0, 0⟩, ⟨1, 10, 20⟩] 1 =
        some ⟨c1.x, c1.y, none⟩)) :=
  ⟨by with_unfolding_all decide, by with_unfolding_all decide,
    C8_interpolation [⟨0, 0, 0⟩, ⟨1, 10, 20⟩] 1 (by with_unfolding_all decide)
      (by with_unfolding_all decide)⟩

/-! ### StartFinishCondition lap processing (C7) -/

/-- C7: for a usable lap, the position samples in the ±10-second window
around the approximate crossing time are partitioned into the side with
`x < candidate.x` and the side with `x ≥ candidate.x`; when either side is
empty the lap yields no derived point (`some none`) and the lap loop simply
continues with the next lap, without raising; when both sides are non-empty
the sample minimizing the distance to the candidate is picked from each
side and the lap's result is computed from the interpolated crossing date. -/
theorem C7_condition_partition_and_skip (ss : ℚ) (maxL : Option ℚ)
    (drvPos : List PosSample) (test : TrackPoint) (lap : Lap) (rest : List Lap)
    (acc : List ℚ × List ℚ)
    (husable : usableLap maxL lap = true) :
    ∀ window posPoints negPoints,
      window = drvPos.filter (fun s =>
        decide (ss + lap.time - 10 < s.date) && decide (s.date < ss + lap.time + 10)) →
      posPoints = window.filter (fun s => decide (s.x < test.x)) →
      negPoints = window.filter (fun s => !decide (s.x < test.x)) →
      ((∀ s ∈ posPoints, s.x < test.x) ∧ (∀ s ∈ negPoints, test.x ≤ s.x) ∧
        (∀ s ∈ window, s ∈ posPoints ∨ s ∈ negPoints)) ∧
      ((posPoints = [] ∨ negPoints = []) →
        processLap ss maxL drvPos test lap = some none ∧
        forDriverAux ss maxL drvPos test (lap :: rest) acc =
          forDriverAux ss maxL drvPos test rest acc) ∧
      (∀ ph pt nh nt, posPoints = ph :: pt → negPoints = nh :: nt →
        pickClosest test ph pt ∈ posPoints ∧
        (∀ s ∈ posPoints, sampleDist test (pickClosest test ph pt) ≤ sampleDist test s) ∧
        pickClosest test nh nt ∈ negPoints ∧
        (∀ s ∈ negPoints, sampleDist test (pickClosest test nh nt) ≤ sampleDist test s) ∧
        processLap ss maxL drvPos test lap =
          (match interpolate_pos_from_time drvPos
              ((pickClosest test ph pt).date +
                ((pickClosest test nh nt).date - (pickClosest test ph pt).date) *
                  (test.x - (pickClosest test ph pt).x) /
                  ((pickClosest test nh nt).x - (pickClosest test ph pt).x) -
                lap.lastLapTime) with
            | none => none
            | some pt2 => some (some (pt2.x, pt2.y)))) := by
  intro window posPoints negPoints hw hp hneg
  rcases hn : lap.numberOfLaps with _ | n
  · simp only [usableLap, hn] at husable
    exact absurd husable (by decide)
  · have hcond : ¬(n = 1 ∨ some n = maxL ∨ lap.pitInTime ≠ none ∨ lap.pitOutTime ≠ none) := by
      simp only [usableLap, hn] at husable
      simpa using husable
    have hbody : processLap ss maxL drvPos test lap =
        (match (drvPos.filter (fun s =>
        decide (ss + lap.time - 10 < s.date) && decide (s.date < ss + lap.time + 10))).filter (fun s => decide (s.x < test.x)),
            (drvPos.filter (fun s =>
        decide (ss + lap.time - 10 < s.date) && decide (s.date < ss + lap.time + 10))).filter (fun s => !decide (s.x < test.x)) with
          | [], _ => some none
          | _ :: _, [] => some none
          | ph :: pt, nh :: nt =>
            (match interpolate_pos_from_time drvPos
              ((pickClosest test ph pt).date +
                ((pickClosest test nh nt).date - (pickClosest test ph pt).date) *
                  (test.x - (pickClosest test ph pt).x) /
                  ((pickClosest test nh nt).x - (pickClosest test ph pt).x) -
                lap.lastLapTime) with
              | none => none
              | some pt2 => some (some (pt2.x, pt2.y)))) := by
      simp only [processLap, hn]
      rw [if_neg hcond]
    have e1 : (drvPos.filter (fun s =>
        decide (ss + lap.time - 10 < s.date) && decide (s.date < ss + lap.time + 10))).filter (fun s => decide (s.x < test.x)) = posPoints := by
      rw [hp, hw]
    have e2 : (drvPos.filter (fun s =>
        decide (ss + lap.time - 10 < s.date) && decide (s.date < ss + lap.time + 10))).filter (fun s => !decide (s.x < test.x)) = negPoints := by
      rw [hneg, hw]
    have hskip : (posPoints = [] ∨ negPoints = []) →
        processLap ss maxL drvPos test lap = some none := by
      intro hempty
      rw [hbody]
      rcases hempty with h1 | h1
      · rw [h1] at e1
        rw [e1]
      · rw [h1] at e2
        rw [e2]
        rcases hc1 : (drvPos.filter (fun s =>
        decide (ss + lap.time - 10 < s.date) && decide (s.date < ss + lap.time + 10))).filter (fun s => decide (s.x < test.x)) with _ | ⟨a, b⟩
        · rw [hc1]
        · rw [hc1]
    refine ⟨⟨?_, ?_, ?_⟩, ?_, ?_⟩
    · intro s hs
      rw [hp] at hs
      exact of_decide_eq_true (List.mem_filter.mp hs).2
    · intro s hs
      rw [hneg] at hs
      have h2 := (List.mem_filter.mp hs).2
      simp only [Bool.not_eq_true'] at h2
      exact le_of_not_lt (of_decide_eq_false h2)
    · intro s hs
      by_cases hx : decide (s.x < test.x) = true
      · left
        rw [hp]
        exact List.mem_filter.mpr ⟨hs, hx⟩
      · right
        rw [hneg]
        refine List.mem_filter.mpr ⟨hs, ?_⟩
        simp only [Bool.not_eq_true] at hx
        simp [hx]
    · intro hempty
      refine ⟨hskip hempty, ?_⟩
      simp only [forDriverAux, hskip hempty]
    · intro ph pt nh nt hp2 hn2
      have e3 : (drvPos.filter (fun s =>
        decide (ss + lap.time - 10 < s.date) && decide (s.date < ss + lap.time + 10))).filter (fun s => decide (s.x < test.x)) = ph :: pt := by
        rw [e1, hp2]
      have e4 : (drvPos.filter (fun s =>
        decide (ss + lap.time - 10 < s.date) && decide (s.date < ss + lap.time + 10))).filter (fun s => !decide (s.x < test.x)) = nh :: nt := by
        rw [e2, hn2]
      refine ⟨?_, ?_, ?_, ?_, ?_⟩
      · rw [hp2]
        exact minIdxBy_getD_mem (sampleDist test) ph pt
      · rw [hp2]
        exact minIdxBy_is_min (sampleDist test) ph pt
      · rw [hn2]
        exact minIdxBy_getD_mem (sampleDist test) nh nt
      · rw [hn2]
        exact minIdxBy_is_min (sampleDist test) nh nt
      · rw [hbody, e3, e4]

theorem C7_condition_partition_and_skip_witness :
    usableLap (some 3) ⟨some 2, 0, none, none, 0⟩ = true ∧
    (processLap 0 (some 3) [] ⟨0, 0, none⟩ ⟨some 2, 0, none, none, 0⟩ = some none ∧
      forDriverAux 0 (some 3) [] ⟨0, 0, none⟩ [⟨some 2, 0, none, none, 0⟩] ([], []) =
        forDriverAux 0 (some 3) [] ⟨0, 0, none⟩ [] ([], [])) :=
  ⟨by with_unfolding_all decide,
    ((C7_condition_partition_and_skip 0 (some 3) [] ⟨0, 0, none⟩ ⟨some 2, 0, none, none, 0⟩
        [] ([], []) (by with_unfolding_all decide)) [] [] [] rfl rfl rfl).2.1 (Or.inl rfl)⟩
